import Mathlib

/-!
Verification of the quickwit split-lifecycle, garbage-collection, storage and
cache-state components against their natural-language specification.

The development shallowly embeds the relevant Rust code:
pure functions become Lean functions, stateful operations become explicit
state passing over `Storage` and `MetastoreState` values, and fallible
operations return `Except`.  Components whose implementation lives outside
the provided sources (the concrete storage backends, the metastore backend,
and the indexing crate helpers) are modelled from the specification and say
so in their doc comments; everything in `quickwit-core/src/index.rs` and
`quickwit-storage/src/cache_bis/mod.rs` is translated from the source.
-/

namespace Quickwit

/-- Byte payloads are modelled as lists of naturals (one per byte). -/
abbrev Bytes := List Nat

/-- Association-list lookup keyed by strings; used for storage file maps,
metastore index maps and cache item maps. -/
def alist_get {β : Type} : List (String × β) → String → Option β
  | [], _ => none
  | (k, v) :: rest, key => if k = key then some v else alist_get rest key

/-- Association-list removal of every binding of `key`. -/
def alist_remove {β : Type} (l : List (String × β)) (key : String) :
    List (String × β) :=
  l.filter (fun kv => kv.1 ≠ key)

theorem alist_get_remove {β : Type} (l : List (String × β)) (key k : String) :
    alist_get (alist_remove l key) k = if k = key then none else alist_get l k := by
  induction l with
  | nil => simp [alist_remove, alist_get]
  | cons hd tl ih =>
    obtain ⟨a, b⟩ := hd
    by_cases hk : a = key
    · have h1 : alist_remove ((a, b) :: tl) key = alist_remove tl key := by
        simp [alist_remove, List.filter_cons, hk]
      rw [h1, ih]
      by_cases hkk : k = key
      · simp [hkk]
      · have hak : ¬ (a = k) := fun h => hkk ((h ▸ hk : k = key))
        rw [if_neg hkk, if_neg hkk]
        simp [alist_get, hak]
    · have h1 : alist_remove ((a, b) :: tl) key = (a, b) :: alist_remove tl key := by
        simp [alist_remove, List.filter_cons, hk]
      rw [h1]
      by_cases hak : a = k
      · have hkk : ¬ (k = key) := fun h => hk (hak.trans h)
        simp [alist_get, hak, hkk]
      · simp only [alist_get, if_neg hak]
        rw [ih]

theorem alist_remove_idem {β : Type} (l : List (String × β)) (key : String) :
    alist_remove (alist_remove l key) key = alist_remove l key := by
  simp [alist_remove, List.filter_filter]

theorem alist_get_none_remove {β : Type} (l : List (String × β)) (key : String)
    (h : alist_get l key = none) : alist_remove l key = l := by
  induction l with
  | nil => rfl
  | cons hd tl ih =>
    obtain ⟨a, b⟩ := hd
    simp only [alist_get] at h
    by_cases hk : a = key
    · rw [if_pos hk] at h
      exact absurd h (by simp)
    · rw [if_neg hk] at h
      have h1 : alist_remove ((a, b) :: tl) key = (a, b) :: alist_remove tl key := by
        simp [alist_remove, List.filter_cons, hk]
      rw [h1, ih h]

/-- Association-list update: replace the value of every binding of `key`. -/
def alist_set {β : Type} (l : List (String × β)) (key : String) (v : β) :
    List (String × β) :=
  l.map (fun kv => if kv.1 = key then (key, v) else kv)

theorem alist_get_set_same {β : Type} (l : List (String × β)) (key : String)
    (v0 v : β) (h : alist_get l key = some v0) :
    alist_get (alist_set l key v) key = some v := by
  induction l with
  | nil => simp [alist_get] at h
  | cons hd tl ih =>
    obtain ⟨a, b⟩ := hd
    by_cases ha : a = key
    · have hhead : alist_set ((a, b) :: tl) key v = (key, v) :: alist_set tl key v := by
        simp [alist_set, ha]
      rw [hhead]
      simp [alist_get]
    · have hhead : alist_set ((a, b) :: tl) key v = (a, b) :: alist_set tl key v := by
        simp [alist_set, ha]
      simp only [alist_get, if_neg ha] at h
      rw [hhead]
      simp only [alist_get, if_neg ha]
      exact ih h

/-- Storage error kinds, translated from the source error enum referenced in
quickwit-storage (the tests match on DoesNotExist, the cache on
InternalError). -/
inductive StorageErrorKind
  | DoesNotExist
  | Unauthorized
  | Service
  | InternalError
deriving DecidableEq

/-- Modelled from the spec: the storage abstraction of section 4.1
(the concrete RamStorage and LocalFileStorage implementations are not under
the provided sources; only the Storage trait and its generic test suite are).
A backend is a map from relative paths to byte payloads. -/
structure Storage where
  files : List (String × Bytes)
deriving DecidableEq

/-- Look a path up on a backend. -/
def Storage.lookupFile (s : Storage) (path : String) : Option Bytes :=
  alist_get s.files path

/-- Modelled from the spec: put(path, payload) stores the payload under the
path, replacing any previous object. -/
def Storage.put (s : Storage) (path : String) (payload : Bytes) : Storage :=
  ⟨(path, payload) :: alist_remove s.files path⟩

/-- Modelled from the spec: get_all(path) returns the whole object, or the
DoesNotExist error kind when the path is absent. -/
def Storage.get_all (s : Storage) (path : String) : Except StorageErrorKind Bytes :=
  match s.lookupFile path with
  | some bytes => .ok bytes
  | none => .error .DoesNotExist

/-- Modelled from the spec: get_slice(path, start..stop) returns the byte
range of the object, or the DoesNotExist error kind when the path is
absent. -/
def Storage.get_slice (s : Storage) (path : String) (start stop : Nat) :
    Except StorageErrorKind Bytes :=
  match s.lookupFile path with
  | some bytes => .ok ((bytes.drop start).take (stop - start))
  | none => .error .DoesNotExist

/-- The state reached after removing a path from a backend. -/
def Storage.delete_file (s : Storage) (path : String) : Storage :=
  ⟨alist_remove s.files path⟩

/-- Modelled from the spec: delete(path) removes the object; deleting a
missing path is a success (idempotent). -/
def Storage.delete (s : Storage) (path : String) : Except StorageErrorKind Storage :=
  .ok (s.delete_file path)

/-- Modelled from the spec: exists(path) reports presence of the object. -/
def Storage.exists_file (s : Storage) (path : String) : Bool :=
  (s.lookupFile path).isSome

theorem lookupFile_put_same (s : Storage) (path : String) (payload : Bytes) :
    (s.put path payload).lookupFile path = some payload := by
  simp [Storage.put, Storage.lookupFile, alist_get]

theorem lookupFile_delete_file (s : Storage) (path p : String) :
    (s.delete_file path).lookupFile p =
      if p = path then none else s.lookupFile p := by
  simp [Storage.delete_file, Storage.lookupFile, alist_get_remove]

/-- The filename constant of the persisted cache state, translated verbatim
from quickwit-storage/src/cache_bis/mod.rs line 35.  Note the source text is
"cache-sate.json". -/
def CACHE_STATE_FILE_NAME : String := "cache-sate.json"

/-- Disk capacity of a cache, from cache_bis/mod.rs. -/
structure DiskCapacity where
  max_num_files : Nat
  max_num_bytes : Nat
deriving DecidableEq

/-- Persisted cache state, from cache_bis/mod.rs (items are pairs of a
relative path and a size in bytes). -/
structure CacheState where
  remote_storage_uri : String
  local_storage_uri : String
  disk_capacity : DiskCapacity
  ram_capacity : Nat
  items : List (String × Nat)
deriving DecidableEq

/-- The file path opened by CacheState::from_path: the source joins
CACHE_STATE_FILE_NAME onto the given cache-root path
(cache_bis/mod.rs line 60); the file-system read itself is not embeddable,
so we model the computed path. -/
def CacheState.state_file_path (path : String) : String :=
  path ++ "/" ++ CACHE_STATE_FILE_NAME

/-- Modelled from the spec: a concrete two-tier local cache state for the
Cache trait of cache_bis/mod.rs (the trait implementations
local_storage_cache and in_ram_slice_cache are not under the provided
sources).  disk_items holds whole objects; ram_slices holds cached
sub-ranges keyed by path and byte range. -/
structure LocalCache where
  disk_items : List (String × Bytes)
  ram_slices : List ((String × Nat × Nat) × Bytes)
deriving DecidableEq

/-- Lookup of a cached slice keyed by (path, start, stop). -/
def slice_get : List ((String × Nat × Nat) × Bytes) → String → Nat → Nat → Option Bytes
  | [], _, _, _ => none
  | (k, bytes) :: rest, path, start, stop =>
    if k = (path, start, stop) then some bytes else slice_get rest path start stop

/-- Modelled from the spec: Cache::get returns StorageResult of Option:
the cached whole object when present, in-band none on a miss. -/
def LocalCache.get (c : LocalCache) (path : String) :
    Except StorageErrorKind (Option Bytes) :=
  .ok (alist_get c.disk_items path)

/-- Modelled from the spec: Cache::get_slice checks the RAM slice cache,
then the on-disk copy, and reports a miss in-band as none. -/
def LocalCache.get_slice (c : LocalCache) (path : String) (start stop : Nat) :
    Except StorageErrorKind (Option Bytes) :=
  match slice_get c.ram_slices path start stop with
  | some bytes => .ok (some bytes)
  | none =>
    match alist_get c.disk_items path with
    | some bytes => .ok (some ((bytes.drop start).take (stop - start)))
    | none => .ok none

/-- Split lifecycle states, from the spec section 3 state machine (the
quickwit-metastore crate is not under the provided sources; the CLI tests
reference these states). -/
inductive SplitState
  | New
  | Staged
  | Published
  | ScheduledForDeletion
deriving DecidableEq

/-- Modelled from the spec: the split metadata fields the lifecycle and GC
claims need (quickwit_metastore::SplitMetadata is not under the provided
sources; PackagedSplit in quickwit-indexing mirrors the same fields). -/
structure SplitMetadata where
  split_id : String
  split_state : SplitState
  update_timestamp : Int
  size_in_bytes : Nat
deriving DecidableEq

/-- State of one index row: its storage root URI and its splits. -/
structure IndexState where
  index_uri : String
  splits : List SplitMetadata
deriving DecidableEq

/-- Modelled from the spec: the metastore catalog of section 4.4, a map from
index_id to the index row (the metastore backends are not under the provided
sources). -/
structure MetastoreState where
  indexes : List (String × IndexState)
deriving DecidableEq

/-- Metastore error kinds from section 7. -/
inductive MetastoreError
  | NotFound
  | AlreadyExists
  | PreconditionFailed
  | InternalError
deriving DecidableEq

/-- Look an index row up. -/
def MetastoreState.lookupIndex (ms : MetastoreState) (index_id : String) :
    Option IndexState :=
  alist_get ms.indexes index_id

/-- Replace the row of an existing index. -/
def MetastoreState.setIndex (ms : MetastoreState) (index_id : String)
    (ix : IndexState) : MetastoreState :=
  ⟨alist_set ms.indexes index_id ix⟩

/-- Modelled from the spec: index_metadata(id) returns the current snapshot,
or NotFound. -/
def MetastoreState.index_metadata (ms : MetastoreState) (index_id : String) :
    Except MetastoreError IndexState :=
  match ms.lookupIndex index_id with
  | some ix => .ok ix
  | none => .error .NotFound

/-- Modelled from the spec: list_all_splits(id) returns a snapshot of the
splits in all states. -/
def MetastoreState.list_all_splits (ms : MetastoreState) (index_id : String) :
    Except MetastoreError (List SplitMetadata) :=
  match ms.lookupIndex index_id with
  | some ix => .ok ix.splits
  | none => .error .NotFound

/-- Modelled from the spec: list_splits(id, state) returns the splits in the
given state. -/
def MetastoreState.list_splits (ms : MetastoreState) (index_id : String)
    (state : SplitState) : Except MetastoreError (List SplitMetadata) :=
  match ms.lookupIndex index_id with
  | some ix => .ok (ix.splits.filter (fun s => s.split_state = state))
  | none => .error .NotFound

/-- Mark one split when its id is listed: its state becomes
ScheduledForDeletion. -/
def markSplit (split_ids : List String) (s : SplitMetadata) : SplitMetadata :=
  if s.split_id ∈ split_ids then
    { s with split_state := .ScheduledForDeletion }
  else s

/-- Modelled from the spec: mark_splits_for_deletion(id, ids) moves the named
splits to ScheduledForDeletion, idempotently. -/
def MetastoreState.mark_splits_for_deletion (ms : MetastoreState)
    (index_id : String) (split_ids : List String) :
    Except MetastoreError MetastoreState :=
  match ms.lookupIndex index_id with
  | some ix =>
    .ok (ms.setIndex index_id { ix with splits := ix.splits.map (markSplit split_ids) })
  | none => .error .NotFound

/-- Modelled from the spec: delete_splits(id, ids) requires every named split
to be in ScheduledForDeletion and removes their entries. -/
def MetastoreState.delete_splits (ms : MetastoreState) (index_id : String)
    (split_ids : List String) : Except MetastoreError MetastoreState :=
  match ms.lookupIndex index_id with
  | none => .error .NotFound
  | some ix =>
    if ix.splits.all (fun s =>
        decide (s.split_id ∈ split_ids →
          s.split_state = SplitState.ScheduledForDeletion)) then
      .ok (ms.setIndex index_id
        { ix with splits := ix.splits.filter (fun s => s.split_id ∉ split_ids) })
    else .error .PreconditionFailed

/-- Modelled from the spec: the metastore delete_index(id) requires no splits
except ScheduledForDeletion and removes the index row. -/
def MetastoreState.delete_index (ms : MetastoreState) (index_id : String) :
    Except MetastoreError MetastoreState :=
  match ms.lookupIndex index_id with
  | none => .error .NotFound
  | some ix =>
    if ix.splits.all (fun s =>
        decide (s.split_state = SplitState.ScheduledForDeletion)) then
      .ok ⟨alist_remove ms.indexes index_id⟩
    else .error .PreconditionFailed

/-- Modelled from the spec: split files live at <split_id>.split under the
index URI (quickwit_common::split_file, not under the provided sources). -/
def split_file (split_id : String) : String := split_id ++ ".split"

/-- Modelled from the spec: a FileEntry names one storage file and its size
(quickwit_indexing::FileEntry, not under the provided sources). -/
structure FileEntry where
  file_name : String
  file_size_in_bytes : Nat
deriving DecidableEq

/-- The FileEntry of a split (its .split file and size). -/
def FileEntry.fromSplit (s : SplitMetadata) : FileEntry :=
  ⟨split_file s.split_id, s.size_in_bytes⟩

/-- Modelled from the spec: result record of the GC and delete-with-files
passes, with the actually deleted entries and the dry-run candidates. -/
structure DeletionStats where
  deleted_entries : List FileEntry
  candidate_entries : List FileEntry
deriving DecidableEq

/-- Observable mutation events of a run, used to state ordering
properties. -/
inductive Event
  | markedForDeletion (split_ids : List String)
  | fileDeleted (file_name : String)
  | splitsDeleted (split_ids : List String)
  | indexRowDeleted
deriving DecidableEq

/-- Remove a list of paths from a backend, one Storage.delete at a time. -/
def deleteFiles (sto : Storage) (names : List String) : Storage :=
  names.foldl Storage.delete_file sto

theorem lookupFile_deleteFiles (sto : Storage) (names : List String) (p : String) :
    (deleteFiles sto names).lookupFile p =
      if p ∈ names then none else sto.lookupFile p := by
  induction names generalizing sto with
  | nil => simp [deleteFiles]
  | cons hd tl ih =>
    have hstep : deleteFiles sto (hd :: tl) = deleteFiles (sto.delete_file hd) tl := rfl
    rw [hstep, ih]
    by_cases hp : p ∈ tl
    · simp [hp]
    · rw [if_neg hp, lookupFile_delete_file]
      by_cases hph : p = hd
      · simp [hph]
      · simp [hph, hp, List.mem_cons]

/-- Modelled from the spec (section 4.5 delete-with-files; the
quickwit-indexing implementation is not under the provided sources): delete
the file of every given split, then remove from the metastore the split
entries whose file deletion succeeded and report them as deleted entries.
In this deterministic embedding every storage delete succeeds
(section 4.1: delete on a missing path is a success). -/
def delete_splits_with_files (index_id : String) (sto : Storage)
    (ms : MetastoreState) (splits : List SplitMetadata) :
    Except MetastoreError (DeletionStats × Storage × MetastoreState × List Event) :=
  let file_names := splits.map (fun s => split_file s.split_id)
  let sto2 := deleteFiles sto file_names
  let split_ids := splits.map (fun s => s.split_id)
  match ms.delete_splits index_id split_ids with
  | .error e => .error e
  | .ok ms2 =>
    .ok (⟨splits.map FileEntry.fromSplit, []⟩, sto2, ms2,
      file_names.map Event.fileDeleted ++ [Event.splitsDeleted split_ids])

/-- Modelled from the spec: step 1 of the GC algorithm (section 4.6), the
state-driven candidates: Staged or ScheduledForDeletion splits whose
update_timestamp is older than now - grace_period. -/
def gcCandidates (ix : IndexState) (now grace_period : Int) : List SplitMetadata :=
  ix.splits.filter (fun s =>
    decide ((s.split_state = SplitState.Staged ∨
             s.split_state = SplitState.ScheduledForDeletion) ∧
            s.update_timestamp < now - grace_period))

/-- Modelled from the spec: step 2 of the GC algorithm, the dangling files:
storage entries under the index URI not referenced by any split in any
state. -/
def gcDangling (ix : IndexState) (sto : Storage) : List (String × Bytes) :=
  sto.files.filter (fun kv =>
    decide (kv.1 ∉ ix.splits.map (fun s => split_file s.split_id)))

/-- The ids of the Staged candidates; GC step 4 marks exactly these as
ScheduledForDeletion. -/
def gcStagedIds (ix : IndexState) (now grace_period : Int) : List String :=
  ((gcCandidates ix now grace_period).filter
    (fun s => decide (s.split_state = SplitState.Staged))).map (fun s => s.split_id)

/-- Modelled from the spec (section 4.6; quickwit-indexing
run_garbage_collect is not under the provided sources).  Step 1 gathers the
Staged and ScheduledForDeletion splits older than now - grace_period
(gcCandidates); step 2 computes the dangling files, the storage keys not
referenced by any split in any state (gcDangling; the storage model carries
no last-modified times, so dangling files are eligible); on dry_run the
union is returned as candidates without mutation; otherwise the Staged
candidates are marked, delete-with-files runs on the candidates, the
dangling files are removed, and the deleted entries are returned. -/
def run_garbage_collect (index_id : String) (sto : Storage) (ms : MetastoreState)
    (now grace_period : Int) (dry_run : Bool) :
    Except MetastoreError (DeletionStats × Storage × MetastoreState) :=
  match ms.lookupIndex index_id with
  | none => .error .NotFound
  | some ix =>
    let candidates := gcCandidates ix now grace_period
    let dangling := gcDangling ix sto
    let candidate_entries :=
      candidates.map FileEntry.fromSplit ++
        dangling.map (fun kv => FileEntry.mk kv.1 kv.2.length)
    if dry_run then
      .ok (⟨[], candidate_entries⟩, sto, ms)
    else
      let staged_ids := gcStagedIds ix now grace_period
      match ms.mark_splits_for_deletion index_id staged_ids with
      | .error e => .error e
      | .ok ms2 =>
        match delete_splits_with_files index_id sto ms2 candidates with
        | .error e => .error e
        | .ok (stats, sto2, ms3, _events) =>
          let sto3 := deleteFiles sto2 (dangling.map (fun kv => kv.1))
          .ok (⟨stats.deleted_entries ++
                  dangling.map (fun kv => FileEntry.mk kv.1 kv.2.length), []⟩,
               sto3, ms3)

namespace Core

/-- Translated from delete_index in quickwit-core/src/index.rs: resolve the
index, on dry_run return one FileEntry per split of list_all_splits without
touching any state; otherwise mark the Staged and Published splits for
deletion, run delete-with-files on the splits listed ScheduledForDeletion,
remove the index row last, and return the deleted entries.  The event list
records the order of the mutating calls. -/
def delete_index (ms : MetastoreState) (sto : Storage) (index_id : String)
    (dry_run : Bool) :
    Except MetastoreError (List FileEntry × Storage × MetastoreState × List Event) :=
  match ms.index_metadata index_id with
  | .error e => .error e
  | .ok _ix =>
    if dry_run then
      match ms.list_all_splits index_id with
      | .error e => .error e
      | .ok all_splits =>
        .ok (all_splits.map FileEntry.fromSplit, sto, ms, [])
    else
      match ms.list_splits index_id SplitState.Staged with
      | .error e => .error e
      | .ok staged =>
        match ms.list_splits index_id SplitState.Published with
        | .error e => .error e
        | .ok published =>
          let split_ids := (staged ++ published).map (fun s => s.split_id)
          match ms.mark_splits_for_deletion index_id split_ids with
          | .error e => .error e
          | .ok ms2 =>
            match ms2.list_splits index_id SplitState.ScheduledForDeletion with
            | .error e => .error e
            | .ok splits_to_delete =>
              match delete_splits_with_files index_id sto ms2 splits_to_delete with
              | .error e => .error e
              | .ok (stats, sto2, ms3, events) =>
                match ms3.delete_index index_id with
                | .error e => .error e
                | .ok ms4 =>
                  .ok (stats.deleted_entries, sto2, ms4,
                    Event.markedForDeletion split_ids :: events ++ [Event.indexRowDeleted])

/-- Translated from garbage_collect_index in quickwit-core/src/index.rs:
resolve the index, call run_garbage_collect, and return candidate_entries
under dry_run, deleted_entries otherwise. -/
def garbage_collect_index (ms : MetastoreState) (sto : Storage)
    (index_id : String) (now grace_period : Int) (dry_run : Bool) :
    Except MetastoreError (List FileEntry × Storage × MetastoreState) :=
  match ms.index_metadata index_id with
  | .error e => .error e
  | .ok _ix =>
    match run_garbage_collect index_id sto ms now grace_period dry_run with
    | .error e => .error e
    | .ok (stats, sto2, ms2) =>
      if dry_run then .ok (stats.candidate_entries, sto2, ms2)
      else .ok (stats.deleted_entries, sto2, ms2)

/-- Translated from reset_index in quickwit-core/src/index.rs: list all
splits, mark them all for deletion, attempt delete-with-files; a failure of
delete-with-files is only logged as a warning (the returned flag) and the
function still returns ok.  The delete-with-files operation is a parameter
so that its failure modes (storage faults, which lie outside this
deterministic embedding) can be modelled by the caller. -/
def reset_index (ms : MetastoreState) (sto : Storage) (index_id : String)
    (dswf : Storage → MetastoreState → List SplitMetadata →
      Except MetastoreError (DeletionStats × Storage × MetastoreState × List Event)) :
    Except MetastoreError (Bool × Storage × MetastoreState) :=
  match ms.index_metadata index_id with
  | .error e => .error e
  | .ok _ix =>
    match ms.list_all_splits index_id with
    | .error e => .error e
    | .ok splits =>
      let split_ids := splits.map (fun s => s.split_id)
      match ms.mark_splits_for_deletion index_id split_ids with
      | .error e => .error e
      | .ok ms2 =>
        match dswf sto ms2 splits with
        | .error _e => .ok (true, sto, ms2)
        | .ok (_stats, sto2, ms3, _events) => .ok (false, sto2, ms3)

end Core

theorem lookupIndex_setIndex_same (ms : MetastoreState) (index_id : String)
    (ix0 ix : IndexState) (h : ms.lookupIndex index_id = some ix0) :
    (ms.setIndex index_id ix).lookupIndex index_id = some ix := by
  simp only [MetastoreState.lookupIndex, MetastoreState.setIndex] at *
  exact alist_get_set_same ms.indexes index_id ix0 ix h

theorem markSplit_split_id (split_ids : List String) (s : SplitMetadata) :
    (markSplit split_ids s).split_id = s.split_id := by
  unfold markSplit
  split <;> rfl

theorem markSplit_of_not_mem (split_ids : List String) (s : SplitMetadata)
    (h : s.split_id ∉ split_ids) : markSplit split_ids s = s := by
  unfold markSplit
  rw [if_neg h]

theorem split_file_injective {a b : String} (h : split_file a = split_file b) :
    a = b := by
  unfold split_file at h
  have hd := congrArg String.data h
  simp only [String.data_append] at hd
  exact String.ext (List.append_cancel_right hd)

/-- Fixture: splits of the concrete example index used by the witnesses. -/
def wSplits : List SplitMetadata :=
  [⟨"s1", SplitState.Published, 100, 7⟩, ⟨"s2", SplitState.Staged, 50, 3⟩]

/-- Fixture: the concrete example index row. -/
def wIx : IndexState := ⟨"ram:idx", wSplits⟩

/-- Fixture: a metastore holding the example index. -/
def wMs : MetastoreState := ⟨[("idx", wIx)]⟩

/-- Fixture: the storage under the example index URI, with both split files
and one dangling file. -/
def wSto : Storage :=
  ⟨[("s1.split", [1, 2, 3]), ("s2.split", [4]), ("dang.split", [9, 9])]⟩

/-- C5: delete_index with dry_run returns one file entry per split of
list_all_splits (whatever its state) and leaves the metastore and the
storage completely unchanged, so the index row remains. -/
theorem delete_index_dry_run_frame (ms : MetastoreState) (sto : Storage)
    (index_id : String) (ix : IndexState)
    (hix : ms.lookupIndex index_id = some ix) :
    Core.delete_index ms sto index_id true =
      .ok (ix.splits.map FileEntry.fromSplit, sto, ms, []) ∧
    (ix.splits.map FileEntry.fromSplit).length = ix.splits.length := by
  constructor
  · simp [Core.delete_index, MetastoreState.index_metadata,
      MetastoreState.list_all_splits, hix]
  · simp

/-- Witness for C5 at the concrete fixture. -/
theorem delete_index_dry_run_frame_witness :
    Core.delete_index wMs wSto "idx" true =
      .ok (wIx.splits.map FileEntry.fromSplit, wSto, wMs, []) ∧
    (wIx.splits.map FileEntry.fromSplit).length = wIx.splits.length :=
  delete_index_dry_run_frame wMs wSto "idx" wIx (by decide)

/-- C6: reset_index marks every split for deletion and then calls
delete-with-files; when that call returns an error, reset_index only logs a
warning (the boolean flag) and still returns ok with the marked metastore
state. -/
theorem reset_index_tolerates_delete_failure (ms : MetastoreState)
    (sto : Storage) (index_id : String) (ix : IndexState)
    (dswf : Storage → MetastoreState → List SplitMetadata →
      Except MetastoreError (DeletionStats × Storage × MetastoreState × List Event))
    (e : MetastoreError)
    (hix : ms.lookupIndex index_id = some ix)
    (herr : dswf sto
        (ms.setIndex index_id
          { ix with splits := ix.splits.map (markSplit (ix.splits.map (fun s => s.split_id))) })
        ix.splits = .error e) :
    Core.reset_index ms sto index_id dswf =
      .ok (true, sto,
        ms.setIndex index_id
          { ix with splits := ix.splits.map (markSplit (ix.splits.map (fun s => s.split_id))) }) := by
  simp only [Core.reset_index, MetastoreState.index_metadata,
    MetastoreState.list_all_splits, MetastoreState.mark_splits_for_deletion, hix]
  rw [herr]

/-- Witness for C6 at the concrete fixture, with a delete-with-files that
always fails. -/
theorem reset_index_tolerates_delete_failure_witness :
    Core.reset_index wMs wSto "idx" (fun _ _ _ => .error .InternalError) =
      .ok (true, wSto,
        wMs.setIndex "idx"
          { wIx with splits := wIx.splits.map (markSplit (wIx.splits.map (fun s => s.split_id))) }) :=
  reset_index_tolerates_delete_failure wMs wSto "idx" wIx
    (fun _ _ _ => .error .InternalError) .InternalError rfl rfl

theorem rowDeleted_after_fileDeleted (pre : List Event)
    (hpre : Event.indexRowDeleted ∉ pre) (tr : List Event)
    (htr : tr = pre ++ [Event.indexRowDeleted]) :
    ∀ (i j : Fin tr.length) (name : String),
      tr.get i = Event.fileDeleted name → tr.get j = Event.indexRowDeleted → i < j := by
  subst htr
  intro i j name hi hj
  have hlen : (pre ++ [Event.indexRowDeleted]).length = pre.length + 1 := by simp
  have hjlt1 : (j : Nat) < pre.length + 1 := lt_of_lt_of_eq j.isLt hlen
  have hilt1 : (i : Nat) < pre.length + 1 := lt_of_lt_of_eq i.isLt hlen
  have hj2 : (j : Nat) = pre.length := by
    by_contra hne
    have hjlt : (j : Nat) < pre.length := by omega
    have hget : (pre ++ [Event.indexRowDeleted]).get j = pre[(j : Nat)] := by
      rw [List.get_eq_getElem]
      exact List.getElem_append_left hjlt
    rw [hget] at hj
    exact hpre (hj ▸ List.getElem_mem hjlt)
  have hi2 : (i : Nat) ≠ pre.length := by
    intro heq
    have hget : (pre ++ [Event.indexRowDeleted]).get i = Event.indexRowDeleted := by
      rw [List.get_eq_getElem]
      exact List.getElem_concat_length pre _ _ heq _
    rw [hget] at hi
    exact Event.noConfusion hi
  exact Fin.lt_def.mpr (by omega)

/-- C4: in every successful run of delete_index with dry_run = false, every
file-deletion event strictly precedes the index-row removal event in the
trace: the metastore delete_index (removing the index row) happens only
after delete-with-files has run over the splits selected for deletion. -/
theorem delete_index_removes_row_last (ms : MetastoreState) (sto : Storage)
    (index_id : String) (entries : List FileEntry) (sto2 : Storage)
    (ms2 : MetastoreState) (tr : List Event)
    (hrun : Core.delete_index ms sto index_id false = .ok (entries, sto2, ms2, tr)) :
    ∀ (i j : Fin tr.length) (name : String),
      tr.get i = Event.fileDeleted name → tr.get j = Event.indexRowDeleted → i < j := by
  unfold Core.delete_index at hrun
  cases hmeta : ms.index_metadata index_id with
  | error e => simp [hmeta] at hrun
  | ok ix0 =>
  simp only [hmeta, Bool.false_eq_true, if_false] at hrun
  cases hstaged : ms.list_splits index_id SplitState.Staged with
  | error e => simp [hstaged] at hrun
  | ok staged =>
  simp only [hstaged] at hrun
  cases hpub : ms.list_splits index_id SplitState.Published with
  | error e => simp [hpub] at hrun
  | ok published =>
  simp only [hpub, List.map_append] at hrun
  cases hmark : ms.mark_splits_for_deletion index_id
      (staged.map (fun s => s.split_id) ++ published.map (fun s => s.split_id)) with
  | error e => simp [hmark] at hrun
  | ok msMarked =>
  simp only [hmark] at hrun
  cases hlist : msMarked.list_splits index_id SplitState.ScheduledForDeletion with
  | error e => simp [hlist] at hrun
  | ok toDelete =>
  simp only [hlist] at hrun
  cases hdswf : delete_splits_with_files index_id sto msMarked toDelete with
  | error e => simp [hdswf] at hrun
  | ok res =>
  obtain ⟨stats, stoAfter, msAfter, events⟩ := res
  simp only [hdswf] at hrun
  cases hdel : msAfter.delete_index index_id with
  | error e => simp [hdel] at hrun
  | ok msFinal =>
  simp only [hdel, Except.ok.injEq, Prod.mk.injEq] at hrun
  obtain ⟨hent, hsto, hms, htr⟩ := hrun
  unfold delete_splits_with_files at hdswf
  cases hds : msMarked.delete_splits index_id (toDelete.map (fun s => s.split_id)) with
  | error e => simp [hds] at hdswf
  | ok msd =>
  simp only [hds, Except.ok.injEq, Prod.mk.injEq] at hdswf
  obtain ⟨hstats, hsto2, hms3, hevents⟩ := hdswf
  refine rowDeleted_after_fileDeleted
    (Event.markedForDeletion
      (staged.map (fun s => s.split_id) ++ published.map (fun s => s.split_id)) :: events)
    ?_ tr ?_
  · rw [← hevents]
    simp [List.mem_cons, List.mem_append, List.mem_map]
  · exact htr.symm

/-- Fixture: the trace produced by delete_index on the example fixture. -/
def wTrace : List Event :=
  [Event.markedForDeletion ["s2", "s1"], Event.fileDeleted "s1.split",
   Event.fileDeleted "s2.split", Event.splitsDeleted ["s1", "s2"],
   Event.indexRowDeleted]

/-- Fixture: the entries deleted by delete_index on the example fixture. -/
def wEntriesDel : List FileEntry := [⟨"s1.split", 7⟩, ⟨"s2.split", 3⟩]

/-- Fixture: the storage left by delete_index on the example fixture. -/
def wStoAfterDel : Storage := ⟨[("dang.split", [9, 9])]⟩

/-- Fixture: the metastore left by delete_index on the example fixture. -/
def wMsAfterDel : MetastoreState := ⟨[]⟩

/-- Witness for C4 at the concrete fixture: in the concrete trace, position
1 deletes a file, position 4 removes the index row, and 1 < 4. -/
theorem delete_index_removes_row_last_witness :
    wTrace.get ⟨1, by decide⟩ = Event.fileDeleted "s1.split" ∧
    wTrace.get ⟨4, by decide⟩ = Event.indexRowDeleted ∧
    (⟨1, by decide⟩ : Fin wTrace.length) < (⟨4, by decide⟩ : Fin wTrace.length) :=
  ⟨by decide, by decide,
    delete_index_removes_row_last wMs wSto "idx" wEntriesDel wStoAfterDel
      wMsAfterDel wTrace rfl ⟨1, by decide⟩ ⟨4, by decide⟩ "s1.split"
      (by decide) (by decide)⟩

/-- Splits left in the index row after a non-dry GC run: every split is
marked when its id is a Staged candidate id, then the candidates are
removed. -/
def gcSplitsAfter (ix : IndexState) (now grace_period : Int) : List SplitMetadata :=
  (ix.splits.map (markSplit (gcStagedIds ix now grace_period))).filter
    (fun s => s.split_id ∉ (gcCandidates ix now grace_period).map (fun t => t.split_id))

/-- The metastore state after GC has marked the Staged candidates. -/
def gcMarkedMs (ms : MetastoreState) (index_id : String) (ix : IndexState)
    (now grace_period : Int) : MetastoreState :=
  ms.setIndex index_id
    { ix with splits := ix.splits.map (markSplit (gcStagedIds ix now grace_period)) }

/-- The metastore state after a complete non-dry GC run. -/
def gcMetastoreAfter (ms : MetastoreState) (index_id : String) (ix : IndexState)
    (now grace_period : Int) : MetastoreState :=
  (gcMarkedMs ms index_id ix now grace_period).setIndex index_id
    { ix with splits := gcSplitsAfter ix now grace_period }

/-- The file entries reported by GC: candidates and dangling files. -/
def gcEntries (ix : IndexState) (sto : Storage) (now grace_period : Int) :
    List FileEntry :=
  (gcCandidates ix now grace_period).map FileEntry.fromSplit ++
    (gcDangling ix sto).map (fun kv => FileEntry.mk kv.1 kv.2.length)

/-- The storage left by a non-dry GC run: candidate split files and dangling
files removed. -/
def gcStorageAfter (ix : IndexState) (sto : Storage) (now grace_period : Int) :
    Storage :=
  deleteFiles
    (deleteFiles sto
      ((gcCandidates ix now grace_period).map (fun s => split_file s.split_id)))
    ((gcDangling ix sto).map (fun kv => kv.1))

theorem marked_candidates_scheduled (ix : IndexState) (now grace_period : Int)
    (hnodup : (ix.splits.map (fun s => s.split_id)).Nodup) :
    ∀ t ∈ ix.splits.map (markSplit (gcStagedIds ix now grace_period)),
      t.split_id ∈ (gcCandidates ix now grace_period).map (fun s => s.split_id) →
        t.split_state = SplitState.ScheduledForDeletion := by
  intro t ht htid
  obtain ⟨u, hu, hut⟩ := List.mem_map.mp ht
  subst hut
  rw [markSplit_split_id] at htid
  obtain ⟨c, hc, hcid⟩ := List.mem_map.mp htid
  have hcmem : c ∈ ix.splits := List.mem_of_mem_filter hc
  have hcu : c = u := List.inj_on_of_nodup_map hnodup hcmem hu hcid
  rw [hcu] at hc
  have hprop := (List.mem_filter.mp hc).2
  simp only [decide_eq_true_eq] at hprop
  obtain ⟨hstate, hold⟩ := hprop
  cases hstate with
  | inl hstaged =>
    have hmem : u.split_id ∈ gcStagedIds ix now grace_period := by
      unfold gcStagedIds
      refine List.mem_map.mpr ⟨u, ?_, rfl⟩
      refine List.mem_filter.mpr ⟨hc, ?_⟩
      simp [hstaged]
    unfold markSplit
    rw [if_pos hmem]
  | inr hsfd =>
    unfold markSplit
    by_cases hmem : u.split_id ∈ gcStagedIds ix now grace_period
    · rw [if_pos hmem]
    · rw [if_neg hmem]
      exact hsfd

theorem gc_false_run (ms : MetastoreState) (sto : Storage) (index_id : String)
    (now grace_period : Int) (ix : IndexState)
    (hix : ms.lookupIndex index_id = some ix)
    (hnodup : (ix.splits.map (fun s => s.split_id)).Nodup) :
    Core.garbage_collect_index ms sto index_id now grace_period false =
      .ok (gcEntries ix sto now grace_period,
           gcStorageAfter ix sto now grace_period,
           gcMetastoreAfter ms index_id ix now grace_period) := by
  have hmark : ms.mark_splits_for_deletion index_id (gcStagedIds ix now grace_period)
      = .ok (gcMarkedMs ms index_id ix now grace_period) := by
    simp [MetastoreState.mark_splits_for_deletion, hix, gcMarkedMs]
  have hlook2 : (gcMarkedMs ms index_id ix now grace_period).lookupIndex index_id
      = some { ix with splits := ix.splits.map (markSplit (gcStagedIds ix now grace_period)) } :=
    lookupIndex_setIndex_same ms index_id ix _ hix
  have hall : (ix.splits.map (markSplit (gcStagedIds ix now grace_period))).all
      (fun s => decide
        (s.split_id ∈ (gcCandidates ix now grace_period).map (fun t => t.split_id) →
          s.split_state = SplitState.ScheduledForDeletion)) = true := by
    rw [List.all_eq_true]
    intro t ht
    rw [decide_eq_true_eq]
    exact marked_candidates_scheduled ix now grace_period hnodup t ht
  have hds : (gcMarkedMs ms index_id ix now grace_period).delete_splits index_id
      ((gcCandidates ix now grace_period).map (fun s => s.split_id))
      = .ok (gcMetastoreAfter ms index_id ix now grace_period) := by
    simp only [MetastoreState.delete_splits, hlook2, hall, if_true]
    rfl
  have hdswf : delete_splits_with_files index_id sto
      (gcMarkedMs ms index_id ix now grace_period) (gcCandidates ix now grace_period)
      = .ok (⟨(gcCandidates ix now grace_period).map FileEntry.fromSplit, []⟩,
             deleteFiles sto
               ((gcCandidates ix now grace_period).map (fun s => split_file s.split_id)),
             gcMetastoreAfter ms index_id ix now grace_period,
             ((gcCandidates ix now grace_period).map (fun s => split_file s.split_id)).map
                 Event.fileDeleted ++
               [Event.splitsDeleted
                 ((gcCandidates ix now grace_period).map (fun s => s.split_id))]) := by
    simp only [delete_splits_with_files, hds]
  simp only [Core.garbage_collect_index, MetastoreState.index_metadata,
    run_garbage_collect, hix, Bool.false_eq_true, if_false, hmark, hdswf]
  rfl

theorem gc_dry_run_eq (ms : MetastoreState) (sto : Storage) (index_id : String)
    (now grace_period : Int) (ix : IndexState)
    (hix : ms.lookupIndex index_id = some ix) :
    Core.garbage_collect_index ms sto index_id now grace_period true =
      .ok (gcEntries ix sto now grace_period, sto, ms) := by
  simp only [Core.garbage_collect_index, MetastoreState.index_metadata,
    run_garbage_collect, hix, if_true]
  rfl

theorem gcStorageAfter_lookup (ix : IndexState) (sto : Storage)
    (now grace_period : Int) (p : String) :
    (gcStorageAfter ix sto now grace_period).lookupFile p =
      if p ∈ (gcDangling ix sto).map (fun kv => kv.1) then none
      else if p ∈ (gcCandidates ix now grace_period).map (fun s => split_file s.split_id)
        then none
      else sto.lookupFile p := by
  unfold gcStorageAfter
  rw [lookupFile_deleteFiles, lookupFile_deleteFiles]

/-- C2: garbage_collect_index with dry_run returns exactly the union of the
deletion candidates (old Staged or ScheduledForDeletion splits, and storage
files referenced by no split) and mutates neither the metastore nor the
storage; with dry_run off it returns exactly the entries whose files were
deleted: every returned entry's file is gone afterwards, and every file
removed from the storage is named by a returned entry. -/
theorem garbage_collect_dry_run_and_delete (ms : MetastoreState) (sto : Storage)
    (index_id : String) (now grace_period : Int) (ix : IndexState)
    (hix : ms.lookupIndex index_id = some ix)
    (hnodup : (ix.splits.map (fun s => s.split_id)).Nodup) :
    (∃ entries,
      Core.garbage_collect_index ms sto index_id now grace_period true =
        .ok (entries, sto, ms) ∧
      ∀ fe : FileEntry, fe ∈ entries ↔
        ((∃ s, s ∈ ix.splits ∧
            (s.split_state = SplitState.Staged ∨
             s.split_state = SplitState.ScheduledForDeletion) ∧
            s.update_timestamp < now - grace_period ∧ fe = FileEntry.fromSplit s) ∨
         (∃ kv, kv ∈ sto.files ∧
            kv.1 ∉ ix.splits.map (fun s => split_file s.split_id) ∧
            fe = FileEntry.mk kv.1 kv.2.length))) ∧
    (∃ entries sto2 ms2,
      Core.garbage_collect_index ms sto index_id now grace_period false =
        .ok (entries, sto2, ms2) ∧
      (∀ fe ∈ entries, sto2.lookupFile fe.file_name = none) ∧
      (∀ p : String, sto.lookupFile p ≠ none → sto2.lookupFile p = none →
        ∃ fe ∈ entries, fe.file_name = p)) := by
  constructor
  · refine ⟨gcEntries ix sto now grace_period,
      gc_dry_run_eq ms sto index_id now grace_period ix hix, ?_⟩
    intro fe
    unfold gcEntries gcCandidates gcDangling
    simp only [List.mem_append, List.mem_map, List.mem_filter, decide_eq_true_eq]
    constructor
    · rintro (⟨s, ⟨hs, hcond1, hcond2⟩, rfl⟩ | ⟨kv, ⟨hkv, hdang⟩, rfl⟩)
      · exact Or.inl ⟨s, hs, hcond1, hcond2, rfl⟩
      · exact Or.inr ⟨kv, hkv, hdang, rfl⟩
    · rintro (⟨s, hs, h1, h2, rfl⟩ | ⟨kv, hkv, hdang, rfl⟩)
      · exact Or.inl ⟨s, ⟨hs, h1, h2⟩, rfl⟩
      · exact Or.inr ⟨kv, ⟨hkv, hdang⟩, rfl⟩
  · refine ⟨gcEntries ix sto now grace_period,
      gcStorageAfter ix sto now grace_period,
      gcMetastoreAfter ms index_id ix now grace_period,
      gc_false_run ms sto index_id now grace_period ix hix hnodup, ?_, ?_⟩
    · intro fe hfe
      rw [gcStorageAfter_lookup]
      unfold gcEntries at hfe
      rcases List.mem_append.mp hfe with hfe1 | hfe2
      · obtain ⟨s, hs, rfl⟩ := List.mem_map.mp hfe1
        have hmem : (FileEntry.fromSplit s).file_name ∈
            (gcCandidates ix now grace_period).map (fun t => split_file t.split_id) :=
          List.mem_map.mpr ⟨s, hs, rfl⟩
        by_cases hd : (FileEntry.fromSplit s).file_name ∈
            (gcDangling ix sto).map (fun kv => kv.1)
        · rw [if_pos hd]
        · rw [if_neg hd, if_pos hmem]
      · obtain ⟨kv, hkv, rfl⟩ := List.mem_map.mp hfe2
        have hmem : (FileEntry.mk kv.1 kv.2.length).file_name ∈
            (gcDangling ix sto).map (fun t => t.1) :=
          List.mem_map.mpr ⟨kv, hkv, rfl⟩
        rw [if_pos hmem]
    · intro p hp hp2
      rw [gcStorageAfter_lookup] at hp2
      by_cases hd : p ∈ (gcDangling ix sto).map (fun kv => kv.1)
      · obtain ⟨kv, hkv, hkvp⟩ := List.mem_map.mp hd
        refine ⟨FileEntry.mk kv.1 kv.2.length, ?_, hkvp⟩
        exact List.mem_append.mpr (Or.inr (List.mem_map.mpr ⟨kv, hkv, rfl⟩))
      · rw [if_neg hd] at hp2
        by_cases hcf : p ∈ (gcCandidates ix now grace_period).map
            (fun s => split_file s.split_id)
        · obtain ⟨s, hs, hsp⟩ := List.mem_map.mp hcf
          refine ⟨FileEntry.fromSplit s, ?_, hsp⟩
          exact List.mem_append.mpr (Or.inl (List.mem_map.mpr ⟨s, hs, rfl⟩))
        · rw [if_neg hcf] at hp2
          exact absurd hp2 hp

/-- Witness for C2 at the concrete fixture. -/
theorem garbage_collect_dry_run_and_delete_witness :
    (∃ entries,
      Core.garbage_collect_index wMs wSto "idx" 200 60 true =
        .ok (entries, wSto, wMs) ∧
      ∀ fe : FileEntry, fe ∈ entries ↔
        ((∃ s, s ∈ wIx.splits ∧
            (s.split_state = SplitState.Staged ∨
             s.split_state = SplitState.ScheduledForDeletion) ∧
            s.update_timestamp < 200 - 60 ∧ fe = FileEntry.fromSplit s) ∨
         (∃ kv, kv ∈ wSto.files ∧
            kv.1 ∉ wIx.splits.map (fun s => split_file s.split_id) ∧
            fe = FileEntry.mk kv.1 kv.2.length))) ∧
    (∃ entries sto2 ms2,
      Core.garbage_collect_index wMs wSto "idx" 200 60 false =
        .ok (entries, sto2, ms2) ∧
      (∀ fe ∈ entries, sto2.lookupFile fe.file_name = none) ∧
      (∀ p : String, wSto.lookupFile p ≠ none → sto2.lookupFile p = none →
        ∃ fe ∈ entries, fe.file_name = p)) :=
  garbage_collect_dry_run_and_delete wMs wSto "idx" 200 60 wIx rfl (by decide)

/-- C3: a Staged split whose age is at most the grace period is spared by a
non-dry GC run: its metastore entry survives unchanged and its storage file
(present or not) is untouched. -/
theorem gc_spares_staged_within_grace (ms : MetastoreState) (sto : Storage)
    (index_id : String) (now grace_period : Int) (ix : IndexState)
    (s : SplitMetadata)
    (hix : ms.lookupIndex index_id = some ix)
    (hnodup : (ix.splits.map (fun t => t.split_id)).Nodup)
    (hs : s ∈ ix.splits)
    (hstate : s.split_state = SplitState.Staged)
    (hage : now - s.update_timestamp ≤ grace_period) :
    ∃ entries sto2 ms2 ix2,
      Core.garbage_collect_index ms sto index_id now grace_period false =
        .ok (entries, sto2, ms2) ∧
      ms2.lookupIndex index_id = some ix2 ∧
      s ∈ ix2.splits ∧
      sto2.lookupFile (split_file s.split_id) =
        sto.lookupFile (split_file s.split_id) := by
  have hnotcand : s ∉ gcCandidates ix now grace_period := by
    intro hmem
    have h2 := (List.mem_filter.mp hmem).2
    simp only [decide_eq_true_eq] at h2
    omega
  have hidnotcand : s.split_id ∉
      (gcCandidates ix now grace_period).map (fun t => t.split_id) := by
    intro hmem
    obtain ⟨c, hc, hcid⟩ := List.mem_map.mp hmem
    have hcmem : c ∈ ix.splits := List.mem_of_mem_filter hc
    have hcs : c = s := List.inj_on_of_nodup_map hnodup hcmem hs hcid
    exact hnotcand (hcs ▸ hc)
  have hidnotstaged : s.split_id ∉ gcStagedIds ix now grace_period := by
    intro hmem
    unfold gcStagedIds at hmem
    obtain ⟨c, hc, hcid⟩ := List.mem_map.mp hmem
    have hc2 : c ∈ gcCandidates ix now grace_period := List.mem_of_mem_filter hc
    exact hidnotcand (List.mem_map.mpr ⟨c, hc2, hcid⟩)
  refine ⟨gcEntries ix sto now grace_period,
    gcStorageAfter ix sto now grace_period,
    gcMetastoreAfter ms index_id ix now grace_period,
    { ix with splits := gcSplitsAfter ix now grace_period },
    gc_false_run ms sto index_id now grace_period ix hix hnodup, ?_, ?_, ?_⟩
  · unfold gcMetastoreAfter
    exact lookupIndex_setIndex_same _ index_id _ _
      (lookupIndex_setIndex_same ms index_id ix _ hix)
  · unfold gcSplitsAfter
    refine List.mem_filter.mpr ⟨?_, ?_⟩
    · exact List.mem_map.mpr ⟨s, hs, markSplit_of_not_mem _ _ hidnotstaged⟩
    · simp only [decide_eq_true_eq]
      exact hidnotcand
  · rw [gcStorageAfter_lookup]
    have h1 : split_file s.split_id ∉ (gcDangling ix sto).map (fun kv => kv.1) := by
      intro hmem
      obtain ⟨kv, hkv, hkvp⟩ := List.mem_map.mp hmem
      have h2 := (List.mem_filter.mp hkv).2
      simp only [decide_eq_true_eq] at h2
      exact h2 (hkvp.symm ▸ List.mem_map.mpr ⟨s, hs, rfl⟩)
    have h2 : split_file s.split_id ∉
        (gcCandidates ix now grace_period).map (fun t => split_file t.split_id) := by
      intro hmem
      obtain ⟨c, hc, hcf⟩ := List.mem_map.mp hmem
      have hcid : c.split_id = s.split_id := split_file_injective hcf
      exact hidnotcand (List.mem_map.mpr ⟨c, hc, hcid⟩)
    rw [if_neg h1, if_neg h2]

/-- Witness for C3 at the concrete fixture: the Staged split "s2" has age
120 - 50 = 70, within the grace period 100. -/
theorem gc_spares_staged_within_grace_witness :
    ∃ entries sto2 ms2 ix2,
      Core.garbage_collect_index wMs wSto "idx" 120 100 false =
        .ok (entries, sto2, ms2) ∧
      ms2.lookupIndex "idx" = some ix2 ∧
      (⟨"s2", SplitState.Staged, 50, 3⟩ : SplitMetadata) ∈ ix2.splits ∧
      sto2.lookupFile (split_file "s2") = wSto.lookupFile (split_file "s2") :=
  gc_spares_staged_within_grace wMs wSto "idx" 120 100 wIx
    ⟨"s2", SplitState.Staged, 50, 3⟩ rfl (by decide) (by decide) rfl (by decide)

/-- C1: the spec says the persisted cache-state file is named
cache-state.json and CacheState::from_path joins that name onto the cache
root.  The source constant CACHE_STATE_FILE_NAME is the misspelled
"cache-sate.json", so from_path on the root "/cache" opens
/cache/cache-sate.json, not /cache/cache-state.json: the code contradicts
the intent spelled out by the name of its own constant. -/
theorem cache_state_file_is_misspelled :
    CacheState.state_file_path "/cache" = "/cache/cache-sate.json" ∧
    CACHE_STATE_FILE_NAME ≠ "cache-state.json" := by
  exact ⟨rfl, by decide⟩

/-- C7: after put(path, payload), get_all(path) returns exactly the payload,
and get_slice(path, start..stop) for a sub-range of the payload returns the
corresponding sub-slice: its length is stop - start and its k-th byte is
byte start + k of the payload. -/
theorem put_get_roundtrip (s : Storage) (path : String) (payload : Bytes)
    (start stop : Nat) (h1 : start ≤ stop) (h2 : stop ≤ payload.length) :
    (s.put path payload).get_all path = .ok payload ∧
    ∃ slice : Bytes,
      (s.put path payload).get_slice path start stop = .ok slice ∧
      slice.length = stop - start ∧
      ∀ k : Nat, k < stop - start → slice.getD k 0 = payload.getD (start + k) 0 := by
  refine ⟨?_, ?_⟩
  · simp [Storage.get_all, lookupFile_put_same]
  · refine ⟨(payload.drop start).take (stop - start), ?_, ?_, ?_⟩
    · simp [Storage.get_slice, lookupFile_put_same]
    · rw [List.length_take, List.length_drop]
      omega
    · intro k hk
      simp [List.getD_eq_getElem?_getD, List.getElem?_take, List.getElem?_drop, hk]

/-- C8: delete on a missing path succeeds and leaves the backend unchanged;
moreover, after any successful delete, a second delete of the same path is a
no-op that also succeeds. -/
theorem delete_missing_ok (s : Storage) (path : String)
    (hmiss : s.lookupFile path = none) :
    s.delete path = .ok s ∧
    ∀ (s0 s1 : Storage) (q : String), s0.delete q = .ok s1 → s1.delete q = .ok s1 := by
  constructor
  · have hget : alist_get s.files path = none := hmiss
    simp [Storage.delete, Storage.delete_file, alist_get_none_remove s.files path hget]
  · intro s0 s1 q hdel
    simp only [Storage.delete, Except.ok.injEq] at hdel
    subst hdel
    simp [Storage.delete, Storage.delete_file, alist_remove_idem]

/-- C9: get_slice on a path absent from the backend fails with the
DoesNotExist error kind (never another kind, never success). -/
theorem get_slice_missing_not_found (s : Storage) (path : String)
    (start stop : Nat) (hmiss : s.lookupFile path = none) :
    s.get_slice path start stop = .error .DoesNotExist := by
  simp [Storage.get_slice, hmiss]

/-- C10: a cache miss is signalled in-band: when the path is absent from the
disk tier and the requested range is absent from the RAM slice tier,
Cache::get and Cache::get_slice both return ok none rather than an error. -/
theorem cache_miss_in_band (c : LocalCache) (path : String) (start stop : Nat)
    (hdisk : alist_get c.disk_items path = none)
    (hram : slice_get c.ram_slices path start stop = none) :
    c.get path = .ok none ∧ c.get_slice path start stop = .ok none := by
  constructor
  · simp [LocalCache.get, hdisk]
  · simp [LocalCache.get_slice, hram, hdisk]

/-- Witness for C7 at a concrete input. -/
theorem put_get_roundtrip_witness :
    ((Storage.mk []).put "f" [10, 11, 12, 13]).get_all "f" = .ok [10, 11, 12, 13] ∧
    ∃ slice : Bytes,
      ((Storage.mk []).put "f" [10, 11, 12, 13]).get_slice "f" 1 3 = .ok slice ∧
      slice.length = 3 - 1 ∧
      ∀ k : Nat, k < 3 - 1 → slice.getD k 0 = [10, 11, 12, 13].getD (1 + k) 0 :=
  put_get_roundtrip (Storage.mk []) "f" [10, 11, 12, 13] 1 3
    (by decide) (by decide)

/-- Witness for C8 at a concrete input. -/
theorem delete_missing_ok_witness :
    (Storage.mk [("a", [1])]).delete "b" = .ok (Storage.mk [("a", [1])]) ∧
    ∀ (s0 s1 : Storage) (q : String), s0.delete q = .ok s1 → s1.delete q = .ok s1 :=
  delete_missing_ok (Storage.mk [("a", [1])]) "b" (by decide)

/-- Witness for C9 at a concrete input. -/
theorem get_slice_missing_not_found_witness :
    (Storage.mk [("a", [1])]).get_slice "missingfile" 0 3 = .error .DoesNotExist :=
  get_slice_missing_not_found (Storage.mk [("a", [1])]) "missingfile" 0 3 (by decide)

/-- Witness for C10 at a concrete input. -/
theorem cache_miss_in_band_witness :
    (LocalCache.mk [("x", [7])] []).get "y" = .ok none ∧
    (LocalCache.mk [("x", [7])] []).get_slice "y" 0 2 = .ok none :=
  cache_miss_in_band (LocalCache.mk [("x", [7])] []) "y" 0 2 (by decide) (by decide)

end Quickwit
